import Mathlib

/-!
Shallow embedding of the annotation / quick-range / calc-metric core of the
devstatscode Rust sources (`src/rust/devstats-cli/src/annotations.rs`,
`src/rust/devstats-cli/src/calc_metric.rs`), together with theorems settling
the frozen claims about it.

Strings are modelled as lists of characters (`Str`); instants are modelled as
unix seconds (`Int`).  External library behaviour that the source calls into
(Rust `str::trim` / `char::is_whitespace`, `i64::from_str`, chrono's
`timestamp_opt` range, SQL `LIKE`) is embedded from that library's documented
semantics; the regex filter is kept abstract as an `Option (Str → Bool)`
matcher, exactly the information `Regex::is_match` contributes.
-/

namespace DevStats

/-- Program strings, as lists of unicode scalar values (Rust `char`s). -/
abbrev Str := List Char

/-- Convert a Lean string literal to the `Str` representation. -/
def lc (s : String) : Str := s.data

/-- Rust `char::is_whitespace`: the Unicode `White_Space` property. -/
def rustIsWhitespace (c : Char) : Bool :=
  let n := c.toNat
  n == 0x20 || (0x9 ≤ n && n ≤ 0xD) || n == 0x85 || n == 0xA0 || n == 0x1680 ||
    (0x2000 ≤ n && n ≤ 0x200A) || n == 0x2028 || n == 0x2029 || n == 0x202F ||
    n == 0x205F || n == 0x3000

/-- Rust `char::is_control`: the Unicode `Cc` category. -/
def rustIsControl (c : Char) : Bool :=
  c.toNat < 0x20 || (0x7F ≤ c.toNat && c.toNat ≤ 0x9F)

/-- Rust `str::trim`: strip `White_Space` characters from both ends. -/
def trim (s : Str) : Str :=
  ((s.dropWhile rustIsWhitespace).reverse.dropWhile rustIsWhitespace).reverse

/-- `sanitize_utf8` (annotations.rs line 72): keep a character unless it is a
control character other than newline, carriage return or tab. -/
def sanitizeUtf8 (s : Str) : Str :=
  s.filter fun c => !rustIsControl c || c == '\n' || c == '\r' || c == '\t'

/-- Split on the two-character separator `♂♀`, scanning left to right,
as Rust's `str::split("♂♀")` does (annotations.rs line 449). -/
def splitSep : Str → List Str
  | [] => [[]]
  | '♂' :: '♀' :: rest => [] :: splitSep rest
  | c :: rest =>
    match splitSep rest with
    | [] => [[c]]
    | f :: fs => (c :: f) :: fs

/-- Split on a single separator character, as Rust's `str::split(char)`. -/
def splitChar (sep : Char) : Str → List Str
  | [] => [[]]
  | c :: rest =>
    if c == sep then [] :: splitChar sep rest
    else
      match splitChar sep rest with
      | [] => [[c]]
      | f :: fs => (c :: f) :: fs

/-- Value of a decimal digit string; `none` when empty or non-digit. -/
def digitsToNat (s : Str) : Option Nat :=
  match s with
  | [] => none
  | _ :: _ =>
    s.foldl (fun acc c =>
      acc.bind fun a => if c.isDigit then some (a * 10 + (c.toNat - 48)) else none)
      (some 0)

/-- Rust `i64::from_str` (used by `tag_data_ary[1].parse::<i64>()`, line 471):
optional sign, non-empty digit run, rejecting values outside `i64`. -/
def parseI64 (s : Str) : Option Int :=
  match s with
  | '+' :: rest =>
    (digitsToNat rest).bind fun n =>
      if n ≤ 9223372036854775807 then some (n : Int) else none
  | '-' :: rest =>
    (digitsToNat rest).bind fun n =>
      if n ≤ 9223372036854775808 then some (-(n : Int)) else none
  | _ =>
    (digitsToNat s).bind fun n =>
      if n ≤ 9223372036854775807 then some (n : Int) else none

/-- Smallest unix second representable as a chrono `DateTime<Utc>`
(midnight of `NaiveDate::MIN` = -262144-01-01). -/
def chronoMinTs : Int := -8334632851200

/-- Largest unix second representable as a chrono `DateTime<Utc>`
(23:59:59 of `NaiveDate::MAX` = 262143-12-31). -/
def chronoMaxTs : Int := 8210298412799

/-- `chrono::Utc.timestamp_opt(ts, 0).single().is_some()` (line 479). -/
def timestampOk (t : Int) : Bool := chronoMinTs ≤ t && t ≤ chronoMaxTs

/-- The epoch floor 2012-07-01T00:00:00Z (`min_date`, line 437). -/
def minDate : Int := 1341100800

/-- `hour_start` (annotations.rs line 61): truncate an instant to the top of
its hour. -/
def hourStart (t : Int) : Int := t - t % 3600

/-- Midnight of the calendar day containing `t`. -/
def dayStart (t : Int) : Int := t - t % 86400

/-- Midnight of chrono's largest representable day, where
`date_naive().succ_opt()` returns `None`. -/
def chronoMaxDayStart : Int := 8210298326400

/-- `next_day_start` (annotations.rs line 66): midnight of the following day;
on the last representable day `succ_opt` fails and the same day is reused. -/
def nextDayStart (t : Int) : Int :=
  if dayStart t = chronoMaxDayStart then dayStart t else dayStart t + 86400

/-- UTF-8 byte size of a string (Rust `String::len`). -/
def byteLen (s : Str) : Nat := (s.map Char.utf8Size).sum

/-- Rust byte-range slicing `message[0..n]`: `none` models the panic raised
when byte index `n` is not a character boundary (or past the end). -/
def takeBytes : Nat → Str → Option Str
  | 0, _ => some []
  | _ + 1, [] => none
  | n + 1, c :: cs =>
    if c.utf8Size ≤ n + 1 then (takeBytes (n + 1 - c.utf8Size) cs).map (c :: ·)
    else none

/-- Rust `str::replace(a, b)` for single characters. -/
def replaceChar (a b : Char) (s : Str) : Str :=
  s.map fun c => if c == a then b else c

/-- Lines 499-500: replace newline, carriage return and tab by a space. -/
def normalizeWs (s : Str) : Str :=
  replaceChar '\t' ' ' (replaceChar '\r' ' ' (replaceChar '\n' ' ' s))

/-- Lines 494-500: truncate the subject to 40 bytes when longer (Rust
`String::len` counts bytes; the slice panics off a char boundary, modelled by
`none`), then normalize whitespace. -/
def processSubject (msg : Str) : Option Str :=
  (if byteLen msg > 40 then takeBytes 40 msg else some msg).map normalizeWs

/-- The `Annotation` record of annotations.rs (line 225).  (The Lean name is
shortened; the fields are the source's.) -/
structure Annot where
  name : Str
  description : Str
  date : Int
deriving DecidableEq

/-- The two fatal outcomes of the tag-processing loop: `exit(1)` on a line
that does not split into three fields (line 452), and the byte-slice panic in
subject truncation (line 496). -/
inductive TagErr
  | badSplit
  | charBoundary
deriving DecidableEq

/-- Lines 458-462: the tag is dropped when a filter regexp is present and it
does not match the tag name. -/
def filterDrop (re : Option (Str → Bool)) (tag : Str) : Bool :=
  match re with
  | some m => !m tag
  | none => false

/-- Body of the per-tag loop of `get_annotations` (annotations.rs lines
441-509).  `re` is the compiled `annotation_regexp` (`none` when the pattern
string is empty).  `Except.ok none` is `continue` (the triple is dropped),
`Except.error` aborts the whole run. -/
def processTagLine (re : Option (Str → Bool)) (line : Str) : Except TagErr (Option Annot) :=
  if trim line = [] then .ok none
  else if (splitSep (trim line)).length ≠ 3 then .error .badSplit
  else if filterDrop re ((splitSep (trim line)).getD 0 []) then .ok none
  else if (splitSep (trim line)).getD 1 [] = [] then .ok none
  else
    match parseI64 ((splitSep (trim line)).getD 1 []) with
    | none => .ok none
    | some ts =>
      if timestampOk ts = false then .ok none
      else if ts < minDate then .ok none
      else
        match processSubject ((splitSep (trim line)).getD 2 []) with
        | none => .error .charBoundary
        | some msg => .ok (some ⟨(splitSep (trim line)).getD 0 [], msg, ts⟩)

/-- The whole tag loop: first fatal line aborts, dropped triples are skipped,
kept triples accumulate in input order. -/
def extractAnnots (re : Option (Str → Bool)) : List Str → Except TagErr (List Annot)
  | [] => .ok []
  | l :: ls =>
    match processTagLine re l with
    | .error e => .error e
    | .ok none => extractAnnots re ls
    | .ok (some a) => (extractAnnots re ls).map (a :: ·)

/-- The annotation a line contributes when the run does not abort. -/
def keptAnn (re : Option (Str → Bool)) (l : Str) : Option Annot :=
  match processTagLine re l with
  | .ok v => v
  | .error _ => none

/-- Ordering on annotations used by `sort_by(|a, b| a.date.cmp(&b.date))`. -/
def annLe (a b : Annot) : Prop := a.date ≤ b.date

instance : DecidableRel annLe := fun a b => inferInstanceAs (Decidable (a.date ≤ b.date))

instance : IsTotal Annot annLe := ⟨fun a b => Int.le_total a.date b.date⟩

instance : IsTrans Annot annLe := ⟨fun _ _ _ h h₂ => le_trans h h₂⟩

/-- Rust's stable `sort_by` on dates (line 517), modelled by the canonical
stable sort. -/
def sortByDate (l : List Annot) : List Annot := List.insertionSort annLe l

/-- The hour-bucket deduplication scan of lines 515-530: `prev` starts at
`min_date` and an annotation is skipped when its hour bucket equals `prev`. -/
def dedupHours (prev : Int) : List Annot → List Annot
  | [] => []
  | a :: as =>
    let cur := hourStart a.date
    if cur = prev then dedupHours prev as
    else a :: dedupHours cur as

/-- `get_annotations` on already-captured tag lines: per-line extraction,
stable sort by date, hour-bucket dedup seeded with `min_date`. -/
def getAnnots (re : Option (Str → Bool)) (lines : List Str) : Except TagErr (List Annot) :=
  (extractAnnots re lines).map fun anns => dedupHours minDate (sortByDate anns)

/-- A non-empty tag line that does not split into exactly three fields on the
`♂♀` separator (the `exit(1)` condition of annotations.rs line 450). -/
def badSplitLine (l : Str) : Prop :=
  trim l ≠ [] ∧ (splitSep (trim l)).length ≠ 3

/-- A tag line whose triple survives every drop filter but whose subject is
longer than 40 bytes with the 40-byte boundary inside a multi-byte character,
so the byte slice `message[0..40]` (line 496) panics. -/
def panicLine (re : Option (Str → Bool)) (l : Str) : Prop :=
  trim l ≠ [] ∧ (splitSep (trim l)).length = 3 ∧
  filterDrop re ((splitSep (trim l)).getD 0 []) = false ∧
  (splitSep (trim l)).getD 1 [] ≠ [] ∧
  (∃ v, parseI64 ((splitSep (trim l)).getD 1 []) = some v ∧
    timestampOk v = true ∧ minDate ≤ v) ∧
  40 < byteLen ((splitSep (trim l)).getD 2 []) ∧
  takeBytes 40 ((splitSep (trim l)).getD 2 []) = none

/-- Whether a run outcome is non-fatal. -/
def isOkE {α : Type} : Except TagErr α → Bool
  | .ok _ => true
  | .error _ => false

/-! ## Quick ranges (`create_quick_ranges`, annotations.rs lines 758-1005) -/

/-- Decimal rendering of a `usize` (Rust `format!("{}", i)`). -/
def natStr (n : Nat) : Str := Nat.toDigits 10 n

/-- One emitted quick-range point.  `fromTs`/`toTs` are the real instants
encoded into the `quick_ranges_data` tag (`"sfx;;from;to"`); `periodTok` is
the duration token of the fixed relative ranges (`"sfx;token;;"`); `tm` is
the synthetic hour-spaced point timestamp threaded through the generator. -/
structure QRPoint where
  sfx : Str
  name : Str
  fromTs : Option Int
  toTs : Option Int
  periodTok : Option Str
  tm : Int
deriving DecidableEq

/-- The fixed relative ranges of lines 769-782, in source order. -/
def fixedPeriods : List (String × String × String) :=
  [("d", "Last day", "1 day"),
   ("w", "Last week", "1 week"),
   ("d10", "Last 10 days", "10 days"),
   ("m", "Last month", "1 month"),
   ("q", "Last quarter", "3 months"),
   ("m6", "Last 6 months", "6 months"),
   ("y", "Last year", "1 year"),
   ("y2", "Last 2 years", "2 years"),
   ("y3", "Last 3 years", "3 years"),
   ("y5", "Last 5 years", "5 years"),
   ("y10", "Last decade", "10 years"),
   ("y100", "Last century", "100 years")]

/-- Lines 789-802: emit the twelve fixed ranges, one hour apart. -/
def fixedPts (tm0 : Int) : List QRPoint :=
  fixedPeriods.enum.map fun p =>
    ⟨lc p.2.1, lc p.2.2.1, none, none, some (lc p.2.2.2), tm0 + 3600 * p.1⟩

/-- Lines 804-840: consecutive-annotation ranges `a_i_{i+1}`, with a final
volatile `a_i_n` range for the last annotation, one hour apart.  (On an empty
timeline the loop body never runs; the release build's `len() - 1` underflow
is harmless since `enumerate` yields nothing.) -/
def annPts (now : Int) : Int → Nat → List Annot → List QRPoint
  | _, _, [] => []
  | tm, i, [a] =>
    [⟨lc "a_" ++ natStr i ++ lc "_n",
      sanitizeUtf8 a.name ++ lc " - now",
      some a.date, some (nextDayStart now), none, tm⟩]
  | tm, i, a :: b :: rest =>
    ⟨lc "a_" ++ natStr i ++ '_' :: natStr (i + 1),
      sanitizeUtf8 a.name ++ lc " - " ++ sanitizeUtf8 b.name,
      some a.date, some b.date, none, tm⟩ ::
      annPts now (tm + 3600) (i + 1) (b :: rest)

/-- Lines 887-892: `correct_order` is false only when both incubating and
graduated dates are present out of order. -/
def correctOrder (incubD gradD : Option Int) : Bool :=
  match incubD, gradD with
  | some i, some g => decide (g > i)
  | _, _ => true

/-- Lines 842-1002: the milestone-phase ranges `c_b`, `c_n`, `c_j_i`,
`c_i_g` / `c_i_n`, `c_j_g`, `c_g_n`, emitted only when both start and join
dates exist with `join > start`, with the incubating and graduated blocks
guarded by `correct_order` and `.. > join`. -/
def milestonePts (startD joinD incubD gradD : Option Int) (now tm : Int) : List QRPoint :=
  match startD, joinD with
  | some start, some join =>
    if decide (join > start) then
      let p1 : QRPoint :=
        ⟨lc "c_b", lc "Before joining CNCF", some start, some join, none, tm⟩
      let p2 : QRPoint :=
        ⟨lc "c_n", lc "Since joining CNCF", some join, some (nextDayStart now), none,
          tm + 3600⟩
      let co := correctOrder incubD gradD
      let incubBlock : List QRPoint × Int :=
        match incubD with
        | some incub =>
          if co && decide (incub > join) then
            ([⟨lc "c_j_i", lc "CNCF join date - moved to incubation",
                some join, some incub, none, tm + 7200⟩,
              match gradD with
              | some grad =>
                ⟨lc "c_i_g", lc "Moved to incubation - graduated",
                  some incub, some grad, none, tm + 10800⟩
              | none =>
                ⟨lc "c_i_n", lc "Since moving to incubating state",
                  some incub, some (nextDayStart now), none, tm + 10800⟩],
              tm + 14400)
          else ([], tm + 7200)
        | none => ([], tm + 7200)
      let gradBlock : List QRPoint :=
        match gradD with
        | some grad =>
          if co && decide (grad > join) then
            match incubD with
            | none =>
              [⟨lc "c_j_g", lc "CNCF join date - graduated",
                  some join, some grad, none, incubBlock.2⟩,
                ⟨lc "c_g_n", lc "Since graduating",
                  some grad, some (nextDayStart now), none, incubBlock.2 + 3600⟩]
            | some _ =>
              [⟨lc "c_g_n", lc "Since graduating",
                  some grad, some (nextDayStart now), none, incubBlock.2⟩]
          else []
        | none => []
      p1 :: p2 :: (incubBlock.1 ++ gradBlock)
    else []
  | _, _ => []

/-- `create_quick_ranges`: fixed ranges from 2012-07-01, then annotation
ranges, then milestone ranges, threading the hour-spaced `tm` counter. -/
def createQuickRanges (anns : List Annot) (startD joinD incubD gradD : Option Int)
    (now : Int) : List QRPoint :=
  fixedPts 1341100800 ++
    annPts now (1341100800 + 3600 * 12) 0 anns ++
    milestonePts startD joinD incubD gradD now
      (1341100800 + 3600 * 12 + 3600 * anns.length)

/-! ## Calc-metric row interpretation (calc_metric.rs lines 124-185) -/

/-- A positionally-typed SQL result cell as `try_get` sees it: a text value
or a numeric (f64) value, the latter modelled as an exact rational. -/
inductive SqlVal
  | vstr (s : Str)
  | vnum (q : ℚ)
deriving DecidableEq

/-- The parsed option set of calc_metric.rs lines 29-41 (fields in source
order; `desc`, `merge_series` and `drop` carry their string payloads). -/
structure CalcCfg where
  hist : Bool
  multivalue : Bool
  escapeValueName : Bool
  skipEscapeSeriesName : Bool
  annotationsRanges : Bool
  skipPast : Bool
  desc : Str
  mergeSeries : Str
  projectScale : ℚ
  customData : Bool
  dropTables : List Str
deriving DecidableEq

/-- Numeric content of a cell (`try_get::<f64>` succeeds only on `vnum`). -/
def numQ : SqlVal → ℚ
  | .vnum q => q
  | .vstr _ => 0

/-- Lines 167-174: the wide-row loop.  `i` is the enumerate index into the
comma-split name list; a point is emitted for name `i` only when column
`i + 1` exists, reading it as f64 (`Except.error` models a `try_get` type
failure aborting the metric). -/
def multiCol (period : Str) (scale : ℚ) (row : List SqlVal) :
    Nat → List Str → Except Unit (List (Str × ℚ))
  | _, [] => .ok []
  | i, nm :: rest =>
    if h : i + 1 < row.length then
      match row.get ⟨i + 1, h⟩ with
      | .vnum v =>
        (multiCol period scale row (i + 1) rest).map
          ((nm ++ '_' :: period ++ '_' :: natStr i, v * scale) :: ·)
      | .vstr _ => .error ()
    else multiCol period scale row (i + 1) rest

/-- Per-row interpretation of `calculate_time_series_metric` (lines 145-182):
1 column → scalar point named `series_period`; ≥ 2 columns with a
comma-separated first column → wide row; ≥ 2 columns with a plain key →
`series_key_period`; rows with 0 columns yield nothing. -/
def processRowTS (seriesName period : Str) (cfg : CalcCfg) (row : List SqlVal) :
    Except Unit (List (Str × ℚ)) :=
  if row.length = 1 then
    match row with
    | [SqlVal.vnum v] =>
      .ok [(if cfg.annotationsRanges
            then seriesName ++ '_' :: period ++ lc "_range"
            else seriesName ++ '_' :: period,
        v * cfg.projectScale)]
    | _ => .error ()
  else if 2 ≤ row.length then
    match row with
    | SqlVal.vstr key :: _ =>
      if key.contains ',' then
        multiCol period cfg.projectScale row 0 (splitChar ',' key)
      else
        match row.getD 1 (SqlVal.vstr []) with
        | SqlVal.vnum v =>
          .ok [(seriesName ++ '_' :: key ++ '_' :: period, v * cfg.projectScale)]
        | SqlVal.vstr _ => .error ()
    | _ => .error ()
  else .ok []

/-! ## Time-series writer (annotations.rs lines 144-221 and 710-721) -/

/-- A `serde_json::Value` field payload as the insert writer renders it
(`fother` covers the `_` arm: arrays/objects rendered as JSON text). -/
inductive FVal
  | fstr (s : Str)
  | fnum (q : ℚ)
  | fbool (b : Bool)
  | fnull
  | fother (s : Str)
deriving DecidableEq

/-- One rendered SQL cell of the `VALUES` clause. -/
inductive Cell
  | ctime (t : Int)
  | cstr (s : Str)
  | cnum (q : ℚ)
  | cbool (b : Bool)
  | cnull
deriving DecidableEq

/-- The writer-relevant fields of `TSPoint` (tags and fields as association
lists standing for the source's `HashMap`s, looked up by first match). -/
structure TSPt where
  name : Str
  period : Str
  time : Int
  tags : Option (List (Str × Str))
  fields : Option (List (Str × FVal))
deriving DecidableEq

/-- Tag keys of a point, `[]` when `tags` is `None` (lines 158-162). -/
def tagKeys (p : TSPt) : List Str := (p.tags.getD []).map Prod.fst

/-- Field keys of a point, `[]` when `fields` is `None` (lines 163-167). -/
def fieldKeys (p : TSPt) : List Str := (p.fields.getD []).map Prod.fst

/-- Lines 178-184: a point's value for a tag column, empty string when the
point lacks the key (`unwrap_or_default`). -/
def lookupTag (p : TSPt) (k : Str) : Str :=
  ((p.tags.getD []).find? (fun kv => kv.1 == k)).map Prod.snd |>.getD []

/-- Lines 188-194: a point's value for a field column, SQL `NULL` when the
point lacks the key (`unwrap_or(serde_json::Value::Null)`). -/
def lookupField (p : TSPt) (k : Str) : FVal :=
  ((p.fields.getD []).find? (fun kv => kv.1 == k)).map Prod.snd |>.getD FVal.fnull

/-- Lines 195-201: rendering of a field value into a SQL cell. -/
def renderField : FVal → Cell
  | .fstr s => .cstr s
  | .fnum q => .cnum q
  | .fbool b => .cbool b
  | .fnull => .cnull
  | .fother s => .cstr s

/-- Lines 171-205: the `VALUES` row of one point, under the column schema of
`sample` (the batch's first point): time, truncated hour, then `sample`'s tag
keys, then `sample`'s field keys. -/
def rowOf (sample p : TSPt) : List Cell :=
  Cell.ctime p.time :: Cell.ctime (hourStart p.time) ::
    ((tagKeys sample).map (fun k => Cell.cstr (lookupTag p k)) ++
      (fieldKeys sample).map (fun k => renderField (lookupField p k)))

/-- `insert_ts_points_batch` (lines 144-221): the column list is built from
the FIRST point's tag/field keys and every point of the batch is rendered
under that schema. -/
def insertBatch (pts : List TSPt) : List Str × List (List Cell) :=
  match pts with
  | [] => ([], [])
  | sample :: _ =>
    (lc "time" :: lc "time_hour" :: (tagKeys sample ++ fieldKeys sample),
      pts.map (rowOf sample))

/-! ## SQL `LIKE` and the stale quick-range delete (lines 710-721) -/

/-- Fuel-indexed SQL `LIKE` matcher: `%` matches any sequence, `_` exactly
one character, anything else itself.  The fuel in `sqlLike` strictly exceeds
the combined length, which every step decreases, so `0` is unreachable. -/
def sqlLikeGo : Nat → Str → Str → Bool
  | 0, _, _ => false
  | _ + 1, [], s => s.isEmpty
  | f + 1, '%' :: p, s =>
    sqlLikeGo f p s ||
      (match s with
       | [] => false
       | _ :: t => sqlLikeGo f ('%' :: p) t)
  | f + 1, '_' :: p, s =>
    (match s with
     | [] => false
     | _ :: t => sqlLikeGo f p t)
  | f + 1, c :: p, s =>
    (match s with
     | [] => false
     | d :: t => c == d && sqlLikeGo f p t)

/-- Postgres `LIKE` on whole strings. -/
def sqlLike (p s : Str) : Bool := sqlLikeGo (p.length + s.length + 1) p s

/-- The pre-write invalidation of `process_annotations` (lines 713-718):
`DELETE FROM "tquick_ranges" WHERE "quick_ranges_suffix" LIKE '%_n'`, modelled
on a table of rows carrying their suffix-column value: the rows that remain
are exactly those NOT matching the pattern. -/
def deleteStaleQuickRanges {α : Type} (sfxOf : α → Str) (tbl : List α) : List α :=
  tbl.filter fun r => !sqlLike (lc "%_n") (sfxOf r)

/-- The write step that follows the invalidation: surviving prior rows plus
the freshly generated rows. -/
def writeQuickRanges {α : Type} (sfxOf : α → Str) (tbl newRows : List α) : List α :=
  deleteStaleQuickRanges sfxOf tbl ++ newRows

end DevStats

deriving instance DecidableEq for Except

namespace DevStats

theorem hourStart_eq (t : Int) : hourStart t = 3600 * (t / 3600) := by
  unfold hourStart
  rw [Int.emod_def]
  ring

theorem hourStart_mono {a b : Int} (h : a ≤ b) : hourStart a ≤ hourStart b := by
  rw [hourStart_eq, hourStart_eq]
  exact mul_le_mul_of_nonneg_left (Int.ediv_le_ediv (by norm_num) h) (by norm_num)

theorem dedupHours_sublist (prev : Int) (l : List Annot) :
    List.Sublist (dedupHours prev l) l := by
  induction l generalizing prev with
  | nil => simp [dedupHours]
  | cons a as ih =>
    simp only [dedupHours]
    split
    · exact (ih prev).trans (List.sublist_cons_self a as)
    · exact List.Sublist.cons₂ a (ih _)

theorem dedupHours_filter (b prev : Int) (l : List Annot)
    (hs : l.Sorted annLe) (hb : ∀ x ∈ l, prev ≤ hourStart x.date) :
    (dedupHours prev l).filter (fun a => hourStart a.date == b) =
      if b = prev then [] else (l.filter (fun a => hourStart a.date == b)).take 1 := by
  induction l generalizing prev with
  | nil => simp [dedupHours]
  | cons a as ih =>
    obtain ⟨ha, has⟩ := List.sorted_cons.mp hs
    simp only [dedupHours]
    by_cases hc : hourStart a.date = prev
    · rw [if_pos hc, ih prev has (fun x hx => hb x (List.mem_cons_of_mem a hx))]
      by_cases hbp : b = prev
      · simp [hbp]
      · rw [if_neg hbp, if_neg hbp, List.filter_cons]
        have hab : (hourStart a.date == b) = false := by
          rw [hc]
          exact beq_eq_false_iff_ne.mpr fun h => hbp h.symm
        rw [hab]
        simp
    · rw [if_neg hc]
      have hprevc : prev < hourStart a.date :=
        lt_of_le_of_ne (hb a (List.mem_cons_self a as)) fun h => hc h.symm
      have hbas : ∀ x ∈ as, hourStart a.date ≤ hourStart x.date :=
        fun x hx => hourStart_mono (ha x hx)
      by_cases hbp : b = prev
      · subst hbp
        rw [if_pos rfl, List.filter_cons]
        have hab : (hourStart a.date == b) = false := beq_eq_false_iff_ne.mpr fun h => hc h
        rw [hab, ih (hourStart a.date) has hbas,
          if_neg (fun h : b = hourStart a.date => hc h.symm)]
        have hnil : as.filter (fun x => hourStart x.date == b) = [] := by
          apply List.filter_eq_nil_iff.mpr
          intro x hx
          have h1 := hbas x hx
          simp only [beq_eq_false_iff_ne, ne_eq, Bool.not_eq_true]
          intro h2
          omega
        rw [hnil]
        simp
      · rw [if_neg hbp]
        by_cases hbc : b = hourStart a.date
        · rw [List.filter_cons, List.filter_cons]
          have hab : (hourStart a.date == b) = true := by simp [hbc]
          rw [hab, ih (hourStart a.date) has hbas, if_pos hbc]
          simp
        · rw [List.filter_cons, List.filter_cons]
          have hab : (hourStart a.date == b) = false := beq_eq_false_iff_ne.mpr fun h => hbc h.symm
          rw [hab, ih (hourStart a.date) has hbas, if_neg hbc]
          simp

theorem dedupHours_chain (prev : Int) (l : List Annot)
    (hs : l.Sorted annLe) (hb : ∀ x ∈ l, prev ≤ hourStart x.date) :
    (∀ y ∈ dedupHours prev l, prev < hourStart y.date) ∧
      (dedupHours prev l).Chain' (fun x y => hourStart x.date < hourStart y.date) := by
  induction l generalizing prev with
  | nil => simp [dedupHours]
  | cons a as ih =>
    obtain ⟨ha, has⟩ := List.sorted_cons.mp hs
    simp only [dedupHours]
    by_cases hc : hourStart a.date = prev
    · rw [if_pos hc]
      exact ih prev has fun x hx => hb x (List.mem_cons_of_mem a hx)
    · rw [if_neg hc]
      have hprevc : prev < hourStart a.date :=
        lt_of_le_of_ne (hb a (List.mem_cons_self a as)) fun h => hc h.symm
      have hbas : ∀ x ∈ as, hourStart a.date ≤ hourStart x.date :=
        fun x hx => hourStart_mono (ha x hx)
      obtain ⟨ihm, ihc⟩ := ih (hourStart a.date) has hbas
      refine ⟨?_, ?_⟩
      · intro y hy
        rcases List.mem_cons.mp hy with rfl | hy
        · exact hprevc
        · exact hprevc.trans (ihm y hy)
      · rw [List.chain'_cons']
        exact ⟨fun y hy => ihm y (List.mem_of_mem_head? hy), ihc⟩

end DevStats

namespace DevStats

theorem processTagLine_date {re : Option (Str → Bool)} {l : Str} {a : Annot}
    (h : processTagLine re l = Except.ok (some a)) : minDate ≤ a.date := by
  unfold processTagLine at h
  repeat' split at h
  all_goals try (simp at h; done)
  simp only [Except.ok.injEq, Option.some.injEq] at h
  subst h
  dsimp only
  simp only [minDate] at *
  omega

theorem extractAnnots_date {re : Option (Str → Bool)} {lines : List Str} {anns : List Annot}
    (h : extractAnnots re lines = Except.ok anns) : ∀ a ∈ anns, minDate ≤ a.date := by
  induction lines generalizing anns with
  | nil =>
    simp only [extractAnnots, Except.ok.injEq] at h
    subst h
    simp
  | cons l ls ih =>
    unfold extractAnnots at h
    cases hp : processTagLine re l with
    | error e => rw [hp] at h; cases h
    | ok v =>
      rw [hp] at h
      cases v with
      | none => exact ih h
      | some a0 =>
        cases hx : extractAnnots re ls with
        | error e => rw [hx] at h; cases h
        | ok tl =>
          rw [hx] at h
          simp only [Except.map, Except.ok.injEq] at h
          subst h
          intro a ha
          rcases List.mem_cons.mp ha with rfl | ha
          · exact processTagLine_date hp
          · exact ih hx a ha

end DevStats

namespace DevStats

/-- C1 (amended): over the full extraction+dedup pipeline, kept annotations
have pairwise distinct, strictly increasing hour buckets and stay sorted by
date; for every hour bucket other than the epoch-floor sentinel
`min_date`, the earliest annotation of the sorted input falling in that
bucket is exactly the one kept; annotations in the `min_date` bucket itself
are always dropped (the scan's `prev` starts at `min_date`, not at "no
previous kept annotation"). -/
theorem c1_dedup_invariants (re : Option (Str → Bool)) (lines : List Str)
    (anns out : List Annot)
    (hx : extractAnnots re lines = Except.ok anns)
    (hout : getAnnots re lines = Except.ok out) :
    out.Chain' (fun x y => hourStart x.date < hourStart y.date) ∧
    out.Sorted annLe ∧
    (∀ b : Int, b ≠ minDate →
      out.filter (fun a => hourStart a.date == b) =
        ((sortByDate anns).filter (fun a => hourStart a.date == b)).take 1) ∧
    out.filter (fun a => hourStart a.date == minDate) = [] := by
  have hdates : ∀ a ∈ sortByDate anns, minDate ≤ hourStart a.date := by
    intro a ha
    have h1 : minDate ≤ a.date :=
      extractAnnots_date hx a ((List.mem_insertionSort annLe).mp ha)
    have h2 : hourStart minDate ≤ hourStart a.date := hourStart_mono h1
    have h3 : hourStart minDate = minDate := by decide
    rw [h3] at h2
    exact h2
  have hs : (sortByDate anns).Sorted annLe := List.sorted_insertionSort annLe anns
  have hout2 : out = dedupHours minDate (sortByDate anns) := by
    unfold getAnnots at hout
    rw [hx] at hout
    simp only [Except.map, Except.ok.injEq] at hout
    exact hout.symm
  subst hout2
  refine ⟨(dedupHours_chain minDate _ hs hdates).2, ?_, ?_, ?_⟩
  · exact hs.sublist (dedupHours_sublist minDate _)
  · intro b hb
    rw [dedupHours_filter b minDate _ hs hdates, if_neg hb]
  · rw [dedupHours_filter minDate minDate _ hs hdates, if_pos rfl]

/-- C1 counterexample: a single tag whose timestamp is exactly the epoch
floor survives extraction, yet deduplication drops it although no previously
kept annotation shares its hour bucket — so "the earliest annotation of a
bucket is kept / an annotation is dropped exactly when its bucket equals the
previous kept one's" fails at this input. -/
theorem c1_counterexample :
    extractAnnots none [lc "a♂♀1341100800♂♀x"] =
        Except.ok [⟨lc "a", lc "x", 1341100800⟩] ∧
    getAnnots none [lc "a♂♀1341100800♂♀x"] = Except.ok [] ∧
    ¬ (([] : List Annot).filter (fun a => hourStart a.date == hourStart 1341100800) =
        ((sortByDate [⟨lc "a", lc "x", 1341100800⟩]).filter
          (fun a => hourStart a.date == hourStart 1341100800)).take 1) := by
  decide

/-- C1 witness: the amended theorem applied to two tags sharing the hour
bucket 2012-07-01T01:00Z (first wins, second dropped). -/
theorem c1_witness :
    getAnnots none [lc "a♂♀1341104400♂♀x", lc "b♂♀1341104405♂♀y"] =
        Except.ok [⟨lc "a", lc "x", 1341104400⟩] ∧
    (List.Chain' (fun x y => hourStart x.date < hourStart y.date)
      [(⟨lc "a", lc "x", 1341104400⟩ : Annot)] ∧
    List.Sorted annLe [(⟨lc "a", lc "x", 1341104400⟩ : Annot)] ∧
    (∀ b : Int, b ≠ minDate →
      ([(⟨lc "a", lc "x", 1341104400⟩ : Annot)]).filter (fun a => hourStart a.date == b) =
        ((sortByDate [⟨lc "a", lc "x", 1341104400⟩, ⟨lc "b", lc "y", 1341104405⟩]).filter
          (fun a => hourStart a.date == b)).take 1) ∧
    ([(⟨lc "a", lc "x", 1341104400⟩ : Annot)]).filter
        (fun a => hourStart a.date == minDate) = []) :=
  ⟨by decide,
    c1_dedup_invariants none [lc "a♂♀1341104400♂♀x", lc "b♂♀1341104405♂♀y"]
      [⟨lc "a", lc "x", 1341104400⟩, ⟨lc "b", lc "y", 1341104405⟩]
      [⟨lc "a", lc "x", 1341104400⟩] (by decide) (by decide)⟩

/-- C2 counterexample: on the two scenario tag lines the pipeline does NOT
return two annotations. -/
theorem c2_counterexample :
    (getAnnots none [lc "v1.0♂♀1341100800♂♀Initial release",
        lc "v1.1♂♀1341187200♂♀Second release with a very long commit subject line exceeding forty chars"]).map
      List.length ≠ Except.ok 2 := by
  decide

/-- C2 (amended): the scenario yields exactly one annotation — `v1.0`, whose
timestamp is the epoch floor 2012-07-01T00:00Z, falls in the hour bucket the
dedup scan is seeded with and is dropped; `v1.1` is kept with its subject
truncated to the first 40 bytes. -/
theorem c2_scenario :
    getAnnots none [lc "v1.0♂♀1341100800♂♀Initial release",
        lc "v1.1♂♀1341187200♂♀Second release with a very long commit subject line exceeding forty chars"] =
      Except.ok [⟨lc "v1.1", lc "Second release with a very long commit s", 1341187200⟩] := by
  decide

end DevStats

namespace DevStats

theorem byteLen_replaceChar (a b : Char) (h : b.utf8Size = a.utf8Size) (s : Str) :
    byteLen (replaceChar a b s) = byteLen s := by
  unfold byteLen replaceChar
  rw [List.map_map]
  induction s with
  | nil => rfl
  | cons c cs ih =>
    simp only [List.map_cons, List.sum_cons, Function.comp]
    rw [show ((if c == a then b else c).utf8Size) = c.utf8Size from ?_]
    · simp only [List.map_map, Function.comp] at ih
      omega
    · by_cases hc : c == a
      · rw [if_pos hc, h]
        exact congrArg Char.utf8Size (eq_of_beq hc).symm
      · rw [if_neg hc]

theorem byteLen_normalizeWs (s : Str) : byteLen (normalizeWs s) = byteLen s := by
  unfold normalizeWs
  rw [byteLen_replaceChar _ _ (by decide), byteLen_replaceChar _ _ (by decide),
    byteLen_replaceChar _ _ (by decide)]

theorem takeBytes_spec :
    ∀ (n : Nat) (s p : Str), takeBytes n s = some p → byteLen p = n ∧ p <+: s := by
  intro n s
  induction s generalizing n with
  | nil =>
    intro p h
    cases n with
    | zero =>
      simp only [takeBytes, Option.some.injEq] at h
      subst h
      exact ⟨rfl, List.nil_prefix⟩
    | succ n => simp [takeBytes] at h
  | cons c cs ih =>
    intro p h
    cases n with
    | zero =>
      simp only [takeBytes, Option.some.injEq] at h
      subst h
      exact ⟨rfl, List.nil_prefix⟩
    | succ n =>
      simp only [takeBytes] at h
      split at h
      · next hsz =>
        cases htb : takeBytes (n + 1 - c.utf8Size) cs with
        | none => rw [htb] at h; simp at h
        | some q =>
          rw [htb] at h
          simp only [Option.map_some', Option.some.injEq] at h
          subst h
          obtain ⟨hlen, hpre⟩ := ih _ _ htb
          constructor
          · simp only [byteLen, List.map_cons, List.sum_cons] at hlen ⊢
            omega
          · obtain ⟨t, rfl⟩ := hpre
            exact ⟨t, rfl⟩
      · simp at h

/-- C3 (amended): subject truncation counts BYTES, not characters — the kept
subject is the whitespace-normalization of a prefix of the input whose UTF-8
byte length is `min (byteLen input) 40` (whitespace replacement itself
preserves byte length); when the 40-byte boundary falls inside a multi-byte
character the slice panics, modelled by `processSubject _ = none`. -/
theorem c3_truncation_bytes (msg r : Str) (h : processSubject msg = some r) :
    byteLen r = min (byteLen msg) 40 ∧ ∃ p, p <+: msg ∧ r = normalizeWs p := by
  unfold processSubject at h
  by_cases hl : byteLen msg > 40
  · rw [if_pos hl] at h
    cases htb : takeBytes 40 msg with
    | none => rw [htb] at h; simp at h
    | some p =>
      rw [htb] at h
      simp only [Option.map_some', Option.some.injEq] at h
      subst h
      obtain ⟨hlen, hpre⟩ := takeBytes_spec 40 msg p htb
      refine ⟨?_, p, hpre, rfl⟩
      rw [byteLen_normalizeWs, hlen]
      omega
  · rw [if_neg hl] at h
    simp only [Option.map_some', Option.some.injEq] at h
    subst h
    refine ⟨?_, msg, List.prefix_refl msg, rfl⟩
    rw [byteLen_normalizeWs]
    omega

/-- C3 counterexample: a subject of 41 two-byte characters is longer than 40
characters, yet the kept subject has 20 characters, not 40 — truncation is
by bytes. -/
theorem c3_counterexample :
    40 < (List.replicate 41 'é').length ∧
    (processSubject (List.replicate 41 'é')).map List.length = some 20 := by
  decide

/-- C3 witness: the amended theorem at a 43-byte ASCII subject. -/
theorem c3_witness :
    byteLen (lc "0123456789012345678901234567890123456789") =
        min (byteLen (lc "0123456789012345678901234567890123456789XYZ")) 40 ∧
    ∃ p, p <+: lc "0123456789012345678901234567890123456789XYZ" ∧
      lc "0123456789012345678901234567890123456789" = normalizeWs p :=
  c3_truncation_bytes (lc "0123456789012345678901234567890123456789XYZ")
    (lc "0123456789012345678901234567890123456789") (by decide)

end DevStats

namespace DevStats

theorem processSubject_none_iff (msg : Str) :
    processSubject msg = none ↔ 40 < byteLen msg ∧ takeBytes 40 msg = none := by
  unfold processSubject
  by_cases hl : byteLen msg > 40
  · rw [if_pos hl]
    cases htb : takeBytes 40 msg <;> simp [htb, hl]
  · rw [if_neg hl]
    simp
    omega

theorem processTagLine_error_iff (re : Option (Str → Bool)) (l : Str) :
    (∃ e, processTagLine re l = Except.error e) ↔ badSplitLine l ∨ panicLine re l := by
  unfold processTagLine badSplitLine panicLine
  by_cases h0 : trim l = []
  · simp [h0]
  · rw [if_neg h0]
    by_cases h1 : (splitSep (trim l)).length ≠ 3
    · simp only [if_pos h1]
      constructor
      · intro _
        exact Or.inl ⟨h0, h1⟩
      · intro _
        exact ⟨TagErr.badSplit, rfl⟩
    · rw [if_neg h1]
      have h1' : (splitSep (trim l)).length = 3 := not_not.mp h1
      by_cases h2 : filterDrop re ((splitSep (trim l)).getD 0 []) = true
      · rw [if_pos h2]
        constructor
        · rintro ⟨e, he⟩
          exact absurd he (by simp)
        · rintro (⟨_, hb⟩ | ⟨_, _, hp, _⟩)
          · exact absurd h1' hb
          · rw [h2] at hp
            cases hp
      · rw [if_neg h2]
        have h2' : filterDrop re ((splitSep (trim l)).getD 0 []) = false :=
          Bool.eq_false_iff.mpr h2
        by_cases h3 : (splitSep (trim l)).getD 1 [] = []
        · rw [if_pos h3]
          constructor
          · rintro ⟨e, he⟩
            exact absurd he (by simp)
          · rintro (⟨_, hb⟩ | ⟨_, _, _, hp, _⟩)
            · exact absurd h1' hb
            · exact absurd h3 hp
        · rw [if_neg h3]
          cases hp : parseI64 ((splitSep (trim l)).getD 1 []) with
          | none =>
            dsimp only
            constructor
            · rintro ⟨e, he⟩
              exact absurd he (by simp)
            · rintro (⟨_, hb⟩ | ⟨_, _, _, _, ⟨v, hv, _⟩, _⟩)
              · exact absurd h1' hb
              · simp at hv
          | some v =>
            dsimp only
            by_cases h4 : timestampOk v = false
            · rw [if_pos h4]
              constructor
              · rintro ⟨e, he⟩
                exact absurd he (by simp)
              · rintro (⟨_, hb⟩ | ⟨_, _, _, _, ⟨w, hw, hwt, _⟩, _⟩)
                · exact absurd h1' hb
                · simp only [Option.some.injEq] at hw
                  subst hw
                  rw [h4] at hwt
                  cases hwt
            · rw [if_neg h4]
              have h4' : timestampOk v = true := by
                revert h4
                cases timestampOk v <;> simp
              by_cases h5 : v < minDate
              · rw [if_pos h5]
                constructor
                · rintro ⟨e, he⟩
                  exact absurd he (by simp)
                · rintro (⟨_, hb⟩ | ⟨_, _, _, _, ⟨w, hw, _, hwd⟩, _⟩)
                  · exact absurd h1' hb
                  · simp only [Option.some.injEq] at hw
                    subst hw
                    exact absurd h5 (Int.not_lt.mpr hwd)
              · rw [if_neg h5]
                cases hs : processSubject ((splitSep (trim l)).getD 2 []) with
                | none =>
                  obtain ⟨hbl, htk⟩ := (processSubject_none_iff _).mp hs
                  dsimp only
                  constructor
                  · intro _
                    exact Or.inr ⟨h0, h1', h2', h3,
                      ⟨v, rfl, h4', Int.not_lt.mp h5⟩, hbl, htk⟩
                  · intro _
                    exact ⟨TagErr.charBoundary, rfl⟩
                | some m =>
                  dsimp only
                  constructor
                  · rintro ⟨e, he⟩
                    exact absurd he (by simp)
                  · rintro (⟨_, hb⟩ | ⟨_, _, _, _, _, hbl, htk⟩)
                    · exact absurd h1' hb
                    · rw [(processSubject_none_iff _).mpr ⟨hbl, htk⟩] at hs
                      cases hs

end DevStats

namespace DevStats

theorem isOkE_map {α β : Type} (f : α → β) (x : Except TagErr α) :
    isOkE (x.map f) = isOkE x := by
  cases x <;> rfl

theorem extractAnnots_abort_iff (re : Option (Str → Bool)) (lines : List Str) :
    isOkE (extractAnnots re lines) = false ↔
      ∃ l ∈ lines, badSplitLine l ∨ panicLine re l := by
  induction lines with
  | nil => simp [extractAnnots, isOkE]
  | cons l ls ih =>
    unfold extractAnnots
    cases hp : processTagLine re l with
    | error e =>
      simp only [isOkE]
      constructor
      · intro _
        exact ⟨l, List.mem_cons_self l ls, (processTagLine_error_iff re l).mp ⟨e, hp⟩⟩
      · intro _
        trivial
    | ok v =>
      have hnol : ¬(badSplitLine l ∨ panicLine re l) := by
        intro hc
        obtain ⟨e, he⟩ := (processTagLine_error_iff re l).mpr hc
        rw [hp] at he
        cases he
      cases v with
      | none =>
        rw [ih]
        constructor
        · rintro ⟨m, hm, hcond⟩
          exact ⟨m, List.mem_cons_of_mem l hm, hcond⟩
        · rintro ⟨m, hm, hcond⟩
          rcases List.mem_cons.mp hm with rfl | hm
          · exact absurd hcond hnol
          · exact ⟨m, hm, hcond⟩
      | some a =>
        rw [isOkE_map, ih]
        constructor
        · rintro ⟨m, hm, hcond⟩
          exact ⟨m, List.mem_cons_of_mem l hm, hcond⟩
        · rintro ⟨m, hm, hcond⟩
          rcases List.mem_cons.mp hm with rfl | hm
          · exact absurd hcond hnol
          · exact ⟨m, hm, hcond⟩

theorem extractAnnots_ok_eq (re : Option (Str → Bool)) (lines : List Str)
    (h : isOkE (extractAnnots re lines) = true) :
    extractAnnots re lines = Except.ok (lines.filterMap (keptAnn re)) := by
  induction lines with
  | nil => rfl
  | cons l ls ih =>
    unfold extractAnnots at h ⊢
    cases hp : processTagLine re l with
    | error e => rw [hp] at h; cases h
    | ok v =>
      rw [hp] at h
      cases v with
      | none =>
        rw [List.filterMap_cons, show keptAnn re l = none by unfold keptAnn; rw [hp]]
        exact ih h
      | some a =>
        rw [isOkE_map] at h
        rw [List.filterMap_cons, show keptAnn re l = some a by unfold keptAnn; rw [hp]]
        rw [ih h]
        rfl

/-- C4 (amended): the run aborts iff some non-empty line fails to split into
exactly three fields on `♂♀` — or some surviving triple's subject panics the
40-byte slice off a character boundary; a triple with an empty or unparseable
timestamp only drops that triple, and the surviving lines' annotations are
extracted in order. -/
theorem c4_abort_iff (re : Option (Str → Bool)) (lines : List Str) :
    (isOkE (extractAnnots re lines) = false ↔
      ∃ l ∈ lines, badSplitLine l ∨ panicLine re l) ∧
    (isOkE (extractAnnots re lines) = true →
      extractAnnots re lines = Except.ok (lines.filterMap (keptAnn re))) :=
  ⟨extractAnnots_abort_iff re lines, extractAnnots_ok_eq re lines⟩

/-- C4 counterexample: a single line that splits into exactly three fields
(and has a valid timestamp) still aborts the whole run — its 41-byte subject
ends in a two-byte character straddling the 40-byte truncation boundary. -/
theorem c4_counterexample :
    (∀ l ∈ [lc "t♂♀1341187200♂♀012345678901234567890123456789012345678é"],
        trim l ≠ [] ∧ (splitSep (trim l)).length = 3) ∧
    isOkE (extractAnnots none
      [lc "t♂♀1341187200♂♀012345678901234567890123456789012345678é"]) = false := by
  decide

/-- C4 witness: the amended theorem on a batch with a fatal bad split, and on
a batch where empty/unparseable timestamps only drop their own triples. -/
theorem c4_witness :
    (∃ l ∈ [lc "x♂♀13♂♀s", lc "no separators"],
      badSplitLine l ∨ panicLine (none : Option (Str → Bool)) l) ∧
    extractAnnots none [lc "t♂♀♂♀s", lc "g♂♀1341187200♂♀ok", lc "b♂♀12x♂♀s"] =
      Except.ok ([lc "t♂♀♂♀s", lc "g♂♀1341187200♂♀ok", lc "b♂♀12x♂♀s"].filterMap
        (keptAnn none)) ∧
    [lc "t♂♀♂♀s", lc "g♂♀1341187200♂♀ok", lc "b♂♀12x♂♀s"].filterMap (keptAnn none) =
      [⟨lc "g", lc "ok", 1341187200⟩] :=
  ⟨(c4_abort_iff none [lc "x♂♀13♂♀s", lc "no separators"]).1.mp (by decide),
    (c4_abort_iff none [lc "t♂♀♂♀s", lc "g♂♀1341187200♂♀ok", lc "b♂♀12x♂♀s"]).2 (by decide),
    by decide⟩

end DevStats

namespace DevStats

theorem cons_ne_of_head {a : Char} {t s : Str} (h : s.head? ≠ some a) : a :: t ≠ s :=
  fun he => h (he ▸ rfl)

theorem fixedPts_sfx (tm0 : Int) :
    (fixedPts tm0).map QRPoint.sfx =
      [lc "d", lc "w", lc "d10", lc "m", lc "q", lc "m6", lc "y", lc "y2", lc "y3",
        lc "y5", lc "y10", lc "y100"] := rfl

theorem annPts_sfx_shape (now : Int) :
    ∀ (tm : Int) (i : Nat) (anns : List Annot) (p : QRPoint),
      p ∈ annPts now tm i anns → ∃ t, p.sfx = 'a' :: '_' :: t := by
  intro tm i anns
  induction anns generalizing tm i with
  | nil => intro p hp; simp [annPts] at hp
  | cons a rest ih =>
    intro p hp
    cases rest with
    | nil =>
      simp only [annPts, List.mem_singleton] at hp
      subst hp
      exact ⟨natStr i ++ lc "_n", rfl⟩
    | cons b rest2 =>
      simp only [annPts, List.mem_cons] at hp
      rcases hp with rfl | hp
      · exact ⟨natStr i ++ '_' :: natStr (i + 1), rfl⟩
      · exact ih (tm + 3600) (i + 1) p hp

theorem milestonePts_out_of_order (start join incub grad now tm : Int)
    (hj : start < join) (hog : grad ≤ incub) :
    milestonePts (some start) (some join) (some incub) (some grad) now tm =
      [⟨lc "c_b", lc "Before joining CNCF", some start, some join, none, tm⟩,
        ⟨lc "c_n", lc "Since joining CNCF", some join, some (nextDayStart now), none,
          tm + 3600⟩] := by
  have hco : correctOrder (some incub) (some grad) = false := by
    simp only [correctOrder, decide_eq_false_iff_not]
    omega
  unfold milestonePts
  dsimp only
  rw [if_pos (decide_eq_true (show join > start from hj))]
  simp [hco]

/-- C5: with start and join present (`join > start`) and incubating/graduated
both present but out of order (`graduated ≤ incubating`), `correct_order` is
false and none of `c_j_i`, `c_i_g`, `c_i_n`, `c_j_g`, `c_g_n` is emitted —
even when `join` precedes both dates — while `c_b` and `c_n` still are. -/
theorem c5_out_of_order (anns : List Annot) (start join incub grad now : Int)
    (hj : start < join) (hog : grad ≤ incub) :
    correctOrder (some incub) (some grad) = false ∧
    (∀ p ∈ createQuickRanges anns (some start) (some join) (some incub) (some grad) now,
      p.sfx ≠ lc "c_j_i" ∧ p.sfx ≠ lc "c_i_g" ∧ p.sfx ≠ lc "c_i_n" ∧
        p.sfx ≠ lc "c_j_g" ∧ p.sfx ≠ lc "c_g_n") ∧
    lc "c_b" ∈ (createQuickRanges anns (some start) (some join) (some incub)
      (some grad) now).map QRPoint.sfx ∧
    lc "c_n" ∈ (createQuickRanges anns (some start) (some join) (some incub)
      (some grad) now).map QRPoint.sfx := by
  have hco : correctOrder (some incub) (some grad) = false := by
    simp only [correctOrder, decide_eq_false_iff_not]
    omega
  have hms := milestonePts_out_of_order start join incub grad now
    (1341100800 + 3600 * 12 + 3600 * anns.length) hj hog
  refine ⟨hco, ?_, ?_, ?_⟩
  · intro p hp
    unfold createQuickRanges at hp
    rcases List.mem_append.mp hp with hp | hp
    · rcases List.mem_append.mp hp with hp | hp
      · have hsfx : p.sfx ∈ (fixedPts 1341100800).map QRPoint.sfx :=
          List.mem_map_of_mem QRPoint.sfx hp
        rw [fixedPts_sfx] at hsfx
        simp only [List.mem_cons, List.not_mem_nil, or_false] at hsfx
        rcases hsfx with h | h | h | h | h | h | h | h | h | h | h | h <;>
          (rw [h]; exact ⟨by decide, by decide, by decide, by decide, by decide⟩)
      · obtain ⟨t, ht⟩ := annPts_sfx_shape now _ 0 anns p hp
        rw [ht]
        exact ⟨cons_ne_of_head (by decide), cons_ne_of_head (by decide),
          cons_ne_of_head (by decide), cons_ne_of_head (by decide),
          cons_ne_of_head (by decide)⟩
    · rw [hms] at hp
      rcases List.mem_cons.mp hp with rfl | hp
      · exact ⟨by dsimp only; decide, by dsimp only; decide, by dsimp only; decide,
          by dsimp only; decide, by dsimp only; decide⟩
      · rcases List.mem_cons.mp hp with rfl | hp
        · exact ⟨by dsimp only; decide, by dsimp only; decide, by dsimp only; decide,
            by dsimp only; decide, by dsimp only; decide⟩
        · simp at hp
  · refine List.mem_map.mpr
      ⟨⟨lc "c_b", lc "Before joining CNCF", some start, some join, none,
        1341100800 + 3600 * 12 + 3600 * anns.length⟩, ?_, rfl⟩
    unfold createQuickRanges
    refine List.mem_append.mpr (Or.inr ?_)
    rw [hms]
    exact List.mem_cons_self _ _
  · refine List.mem_map.mpr
      ⟨⟨lc "c_n", lc "Since joining CNCF", some join, some (nextDayStart now), none,
        1341100800 + 3600 * 12 + 3600 * anns.length + 3600⟩, ?_, rfl⟩
    unfold createQuickRanges
    refine List.mem_append.mpr (Or.inr ?_)
    rw [hms]
    exact List.mem_cons_of_mem _ (List.mem_cons_self _ _)

/-- C5 witness: the spec's out-of-order scenario (start 2015-01-01, join
2016-01-01, incubating 2019-01-01, graduated 2018-01-01). -/
theorem c5_witness :
    (1420070400 : Int) < 1451606400 ∧ (1514764800 : Int) ≤ 1546300800 ∧
    (correctOrder (some 1546300800) (some 1514764800) = false ∧
    (∀ p ∈ createQuickRanges [] (some 1420070400) (some 1451606400) (some 1546300800)
        (some 1514764800) 1546300800,
      p.sfx ≠ lc "c_j_i" ∧ p.sfx ≠ lc "c_i_g" ∧ p.sfx ≠ lc "c_i_n" ∧
        p.sfx ≠ lc "c_j_g" ∧ p.sfx ≠ lc "c_g_n") ∧
    lc "c_b" ∈ (createQuickRanges [] (some 1420070400) (some 1451606400)
      (some 1546300800) (some 1514764800) 1546300800).map QRPoint.sfx ∧
    lc "c_n" ∈ (createQuickRanges [] (some 1420070400) (some 1451606400)
      (some 1546300800) (some 1514764800) 1546300800).map QRPoint.sfx) :=
  ⟨by decide, by decide,
    c5_out_of_order [] 1420070400 1451606400 1546300800 1514764800 1546300800
      (by decide) (by decide)⟩

end DevStats

namespace DevStats

/-- C6 (amended): every emitted milestone-phase quick range has its real
`from` strictly before its real `to`, provided each of the join, incubating
and graduated dates (when present) lies strictly before
`start_of_tomorrow(now)` — the source guards every milestone-to-milestone
range but never compares a milestone date against `now`, so the volatile
`c_n` / `c_i_n` / `c_g_n` ranges need exactly this hypothesis. -/
theorem c6_ranges_ordered (sd jd incubD gradD : Option Int) (now tm : Int)
    (hj : ∀ x, jd = some x → x < nextDayStart now)
    (hi : ∀ x, incubD = some x → x < nextDayStart now)
    (hg : ∀ x, gradD = some x → x < nextDayStart now) :
    ∀ p ∈ milestonePts sd jd incubD gradD now tm,
      ∃ f t, p.fromTs = some f ∧ p.toTs = some t ∧ f < t := by
  intro p hp
  cases sd with
  | none => simp [milestonePts] at hp
  | some start =>
    cases jd with
    | none => simp [milestonePts] at hp
    | some join =>
      unfold milestonePts at hp
      dsimp only at hp
      by_cases hjs : start < join
      · rw [if_pos (decide_eq_true (show join > start from hjs))] at hp
        rcases List.mem_cons.mp hp with rfl | hp
        · exact ⟨start, join, rfl, rfl, hjs⟩
        rcases List.mem_cons.mp hp with rfl | hp
        · exact ⟨join, nextDayStart now, rfl, rfl, hj join rfl⟩
        rcases List.mem_append.mp hp with hp | hp
        · cases incubD with
          | none => simp at hp
          | some incub =>
            dsimp only at hp
            by_cases hcnd :
                (correctOrder (some incub) gradD && decide (incub > join)) = true
            · rw [if_pos hcnd] at hp
              obtain ⟨hco, hij⟩ := Bool.and_eq_true_iff.mp hcnd
              have hij' : join < incub := of_decide_eq_true hij
              dsimp only at hp
              rcases List.mem_cons.mp hp with rfl | hp
              · exact ⟨join, incub, rfl, rfl, hij'⟩
              rcases List.mem_cons.mp hp with rfl | hp
              · cases gradD with
                | some grad =>
                  have hig : incub < grad := by
                    simp only [correctOrder, decide_eq_true_eq] at hco
                    exact hco
                  exact ⟨incub, grad, rfl, rfl, hig⟩
                | none => exact ⟨incub, nextDayStart now, rfl, rfl, hi incub rfl⟩
              · simp at hp
            · rw [if_neg hcnd] at hp
              simp at hp
        · cases gradD with
          | none => simp at hp
          | some grad =>
            dsimp only at hp
            by_cases hcnd :
                (correctOrder incubD (some grad) && decide (grad > join)) = true
            · rw [if_pos hcnd] at hp
              obtain ⟨hco, hgj⟩ := Bool.and_eq_true_iff.mp hcnd
              cases incubD with
              | none =>
                dsimp only at hp
                rcases List.mem_cons.mp hp with rfl | hp
                · exact ⟨join, grad, rfl, rfl, of_decide_eq_true hgj⟩
                rcases List.mem_cons.mp hp with rfl | hp
                · exact ⟨grad, nextDayStart now, rfl, rfl, hg grad rfl⟩
                · simp at hp
              | some incub =>
                dsimp only at hp
                rcases List.mem_cons.mp hp with rfl | hp
                · exact ⟨grad, nextDayStart now, rfl, rfl, hg grad rfl⟩
                · simp at hp
            · rw [if_neg hcnd] at hp
              simp at hp
      · rw [if_neg (by simpa using hjs)] at hp
        simp at hp

/-- C6 counterexample: with a join date later than tomorrow's midnight
(join 2014-05-13, now 2012-07-01) the emitted `c_n` range has
`from = 1400000000 ≥ to = 1341187200` — the claim fails for arbitrary
milestone assignments. -/
theorem c6_counterexample :
    ¬ (∀ p ∈ milestonePts (some 1341100800) (some 1400000000) none none 1341100800 0,
        ∃ f t, p.fromTs = some f ∧ p.toTs = some t ∧ f < t) := by
  intro h
  have hm : milestonePts (some 1341100800) (some 1400000000) none none 1341100800 0 =
      [⟨lc "c_b", lc "Before joining CNCF", some 1341100800, some 1400000000, none, 0⟩,
        ⟨lc "c_n", lc "Since joining CNCF", some 1400000000, some 1341187200, none,
          3600⟩] := by
    decide
  have h2 := h ⟨lc "c_n", lc "Since joining CNCF", some 1400000000, some 1341187200,
    none, 3600⟩ (by rw [hm]; exact List.mem_cons_of_mem _ (List.mem_cons_self _ _))
  obtain ⟨f, t, hf, ht, hlt⟩ := h2
  simp only [Option.some.injEq] at hf ht
  omega

/-- C6 witness: the amended theorem applied to the `c_i_g` range of the
graduated scenario (all milestone dates before 2019-01-01, `now` =
2019-01-01). -/
theorem c6_witness :
    ∃ f t,
      (⟨lc "c_i_g", lc "Moved to incubation - graduated", some 1483228800,
          some 1514764800, none, 10800⟩ : QRPoint).fromTs = some f ∧
      (⟨lc "c_i_g", lc "Moved to incubation - graduated", some 1483228800,
          some 1514764800, none, 10800⟩ : QRPoint).toTs = some t ∧
      f < t :=
  c6_ranges_ordered (some 1420070400) (some 1451606400) (some 1483228800)
    (some 1514764800) 1546300800 0
    (fun x hx => by cases hx; decide)
    (fun x hx => by cases hx; decide)
    (fun x hx => by cases hx; decide)
    ⟨lc "c_i_g", lc "Moved to incubation - graduated", some 1483228800,
      some 1514764800, none, 10800⟩
    (by decide)

end DevStats

namespace DevStats

theorem multiCol_spec (period : Str) (scale : ℚ) (row : List SqlVal)
    (hv : ∀ (j : Nat) (h : j < row.length), 1 ≤ j → ∃ q, row.get ⟨j, h⟩ = SqlVal.vnum q) :
    ∀ (names : List Str) (i : Nat), ∃ pts,
      multiCol period scale row i names = Except.ok pts ∧
      pts.length = min names.length (row.length - (i + 1)) ∧
      ∀ k, k < pts.length →
        pts.getD k ([], 0) =
          (names.getD k [] ++ '_' :: period ++ '_' :: natStr (i + k),
            numQ (row.getD (i + 1 + k) (SqlVal.vnum 0)) * scale) := by
  intro names
  induction names with
  | nil =>
    intro i
    exact ⟨[], rfl, by simp, by intro k hk; simp at hk⟩
  | cons nm rest ih =>
    intro i
    unfold multiCol
    by_cases h : i + 1 < row.length
    · rw [dif_pos h]
      obtain ⟨v, hvv⟩ := hv (i + 1) h (by omega)
      rw [hvv]
      obtain ⟨pts', h1, h2, h3⟩ := ih (i + 1)
      rw [h1]
      refine ⟨_, rfl, ?_, ?_⟩
      · simp only [Except.map, List.length_cons, h2]
        omega
      · intro k hk
        cases k with
        | zero =>
          simp only [List.getD_cons_zero, Nat.add_zero]
          have hgd : row.getD (i + 1) (SqlVal.vnum 0) = SqlVal.vnum v := by
            rw [List.getD_eq_getElem _ _ h]
            rw [List.get_eq_getElem] at hvv
            exact hvv
          rw [hgd]
          rfl
        | succ k =>
          simp only [List.getD_cons_succ]
          have hk' : k < pts'.length := by
            simp only [List.length_cons] at hk
            omega
          rw [h3 k hk']
          have e1 : i + 1 + k = i + (k + 1) := by omega
          have e2 : i + 1 + 1 + k = i + 1 + (k + 1) := by omega
          rw [e1, e2]
    · rw [dif_neg h]
      obtain ⟨pts', h1, h2, h3⟩ := ih (i + 1)
      refine ⟨pts', h1, ?_, ?_⟩
      · simp only [List.length_cons]
        omega
      · intro k hk
        have : pts'.length = 0 := by omega
        omega

/-- C7: a non-histogram row whose first column is a comma-separated name list
and whose remaining columns are numeric yields one point per remaining
column `k` (1-based), named `{name_list[k-1]}_{period}_{k-1}` with value
`column_k * scale`; names beyond the column count are skipped. -/
theorem c7_multicolumn (sn period : Str) (cfg : CalcCfg) (key : Str)
    (vals : List SqlVal)
    (hc : key.contains ',' = true)
    (hne : vals ≠ [])
    (hv : ∀ v ∈ vals, ∃ q, v = SqlVal.vnum q) :
    ∃ pts,
      processRowTS sn period cfg (SqlVal.vstr key :: vals) = Except.ok pts ∧
      pts.length = min (splitChar ',' key).length vals.length ∧
      ∀ k, k < pts.length →
        pts.getD k ([], 0) =
          ((splitChar ',' key).getD k [] ++ '_' :: period ++ '_' :: natStr k,
            numQ (vals.getD k (SqlVal.vnum 0)) * cfg.projectScale) := by
  have hlen : (SqlVal.vstr key :: vals).length = vals.length + 1 := by simp
  have hvlen : 1 ≤ vals.length := by
    cases vals with
    | nil => exact absurd rfl hne
    | cons a l => simp
  unfold processRowTS
  have hne1 : ¬(SqlVal.vstr key :: vals).length = 1 := by
    simp only [List.length_cons]
    omega
  have hge2 : 2 ≤ (SqlVal.vstr key :: vals).length := by
    simp only [List.length_cons]
    omega
  rw [if_neg hne1, if_pos hge2]
  dsimp only
  rw [if_pos hc]
  have hv' : ∀ (j : Nat) (h : j < (SqlVal.vstr key :: vals).length), 1 ≤ j →
      ∃ q, (SqlVal.vstr key :: vals).get ⟨j, h⟩ = SqlVal.vnum q := by
    intro j h hj
    cases j with
    | zero => omega
    | succ j =>
      have hjv : j < vals.length := by simp at h; omega
      obtain ⟨q, hq⟩ := hv (vals.get ⟨j, hjv⟩) (vals.get_mem _ _)
      exact ⟨q, hq⟩
  obtain ⟨pts, h1, h2, h3⟩ := multiCol_spec period cfg.projectScale _ hv'
    (splitChar ',' key) 0
  refine ⟨pts, h1, ?_, ?_⟩
  · rw [h2, hlen]
    omega
  · intro k hk
    rw [h3 k hk]
    have e1 : (0 : Nat) + k = k := by omega
    have e2 : 0 + 1 + k = k + 1 := by omega
    rw [e1, e2, List.getD_cons_succ]

/-- C7 witness: the scenario row `("alice,bob", 3.5, 7.0)` with period `d`
and scale `2.0`, producing exactly `alice_d_0 = 7.0` and `bob_d_1 = 14.0`. -/
theorem c7_witness :
    processRowTS (lc "s") (lc "d") ⟨false, false, false, false, false, false, [], [], 2, false, []⟩
        [SqlVal.vstr (lc "alice,bob"), SqlVal.vnum (7 / 2), SqlVal.vnum 7] =
      Except.ok [(lc "alice_d_0", 7), (lc "bob_d_1", 14)] ∧
    (∃ pts,
      processRowTS (lc "s") (lc "d") ⟨false, false, false, false, false, false, [], [], 2, false, []⟩
          [SqlVal.vstr (lc "alice,bob"), SqlVal.vnum (7 / 2), SqlVal.vnum 7] =
        Except.ok pts ∧
      pts.length = min (splitChar ',' (lc "alice,bob")).length
          [SqlVal.vnum ((7 : ℚ) / 2), SqlVal.vnum 7].length ∧
      ∀ k, k < pts.length →
        pts.getD k ([], 0) =
          ((splitChar ',' (lc "alice,bob")).getD k [] ++ '_' :: lc "d" ++ '_' :: natStr k,
            numQ ([SqlVal.vnum ((7 : ℚ) / 2), SqlVal.vnum 7].getD k (SqlVal.vnum 0)) * 2)) :=
  ⟨by
      rw [show processRowTS (lc "s") (lc "d")
            ⟨false, false, false, false, false, false, [], [], 2, false, []⟩
            [SqlVal.vstr (lc "alice,bob"), SqlVal.vnum (7 / 2), SqlVal.vnum 7] =
          Except.ok [(lc "alice_d_0", 7 / 2 * 2), (lc "bob_d_1", (7 : ℚ) * 2)] from rfl]
      norm_num,
    c7_multicolumn (lc "s") (lc "d") ⟨false, false, false, false, false, false, [], [], 2, false, []⟩
      (lc "alice,bob") [SqlVal.vnum (7 / 2), SqlVal.vnum 7]
      (by decide) (by decide)
      (by
        intro v hv
        simp only [List.mem_cons, List.not_mem_nil, or_false] at hv
        rcases hv with rfl | rfl
        · exact ⟨7 / 2, rfl⟩
        · exact ⟨7, rfl⟩)⟩

/-- C8: `escape_value_name` is parsed into the configuration but never read
by `calculate_time_series_metric` — with the flag enabled, a key containing
spaces and semicolons still produces the raw, unsanitized series name, and
the output is identical to the flag-disabled run. -/
theorem c8_escape_ignored :
    processRowTS (lc "s") (lc "d") ⟨false, false, true, false, false, false, [], [], 1, false, []⟩
        [SqlVal.vstr (lc "a b;c"), SqlVal.vnum 1] =
      Except.ok [(lc "s_a b;c_d", 1)] ∧
    processRowTS (lc "s") (lc "d") ⟨false, false, false, false, false, false, [], [], 1, false, []⟩
        [SqlVal.vstr (lc "a b;c"), SqlVal.vnum 1] =
      Except.ok [(lc "s_a b;c_d", 1)] := by
  constructor
  · rw [show processRowTS (lc "s") (lc "d")
          ⟨false, false, true, false, false, false, [], [], 1, false, []⟩
          [SqlVal.vstr (lc "a b;c"), SqlVal.vnum 1] =
        Except.ok [(lc "s_a b;c_d", (1 : ℚ) * 1)] from rfl]
    norm_num
  · rw [show processRowTS (lc "s") (lc "d")
          ⟨false, false, false, false, false, false, [], [], 1, false, []⟩
          [SqlVal.vstr (lc "a b;c"), SqlVal.vnum 1] =
        Except.ok [(lc "s_a b;c_d", (1 : ℚ) * 1)] from rfl]
    norm_num

end DevStats

namespace DevStats

theorem sqlLikeGo_n (k : Nat) (t : Str) (hk : t.length + 1 ≤ k) :
    sqlLikeGo k ['n'] t = (t == ['n']) := by
  obtain ⟨m, rfl⟩ : ∃ m, k = m + 1 := ⟨k - 1, by omega⟩
  cases t with
  | nil => rfl
  | cons d t2 =>
    obtain ⟨m', rfl⟩ : ∃ m', m = m' + 1 := ⟨m - 1, by simp at hk; omega⟩
    show (('n' == d) && sqlLikeGo (m' + 1) [] t2) = ((d :: t2 : Str) == ['n'])
    rw [show sqlLikeGo (m' + 1) [] t2 = t2.isEmpty from rfl]
    rw [show ((d :: t2 : Str) == ['n']) = ((d == 'n') && (t2 == ([] : Str))) from rfl]
    by_cases hd : d = 'n'
    · subst hd
      cases t2 <;> rfl
    · rw [show ('n' == d) = false from by simp [hd]; exact fun h => hd h.symm]
      rw [show (d == 'n') = false from by simp [hd]]
      rfl

theorem sqlLikeGo_pat (t : Str) :
    ∀ (k : Nat), t.length + 3 ≤ k →
      sqlLikeGo k (lc "%_n") t = (decide (2 ≤ t.length) && (t.getLast? == some 'n')) := by
  induction t with
  | nil =>
    intro k hk
    obtain ⟨m, rfl⟩ : ∃ m, k = m + 1 := ⟨k - 1, by omega⟩
    obtain ⟨m', rfl⟩ : ∃ m', m = m' + 1 := ⟨m - 1, by omega⟩
    rfl
  | cons a t ih =>
    intro k hk
    obtain ⟨m, rfl⟩ : ∃ m, k = m + 1 := ⟨k - 1, by omega⟩
    rw [show sqlLikeGo (m + 1) (lc "%_n") (a :: t) =
        (sqlLikeGo m (lc "_n") (a :: t) || sqlLikeGo m (lc "%_n") t) from rfl]
    have h1 : sqlLikeGo m (lc "_n") (a :: t) = (t == ['n']) := by
      obtain ⟨m', rfl⟩ : ∃ m', m = m' + 1 := ⟨m - 1, by simp at hk; omega⟩
      show sqlLikeGo m' ['n'] t = (t == ['n'])
      exact sqlLikeGo_n m' t (by simp at hk; omega)
    rw [h1, ih m (by simp at hk ⊢; omega)]
    cases t with
    | nil => rfl
    | cons d t2 =>
      cases t2 with
      | nil =>
        by_cases hd : d = 'n'
        · subst hd; rfl
        · have e1 : (d == 'n') = false := beq_eq_false_iff_ne.mpr hd
          simp only [show ((d :: ([] : Str)) == ['n']) = ((d == 'n') && true) from rfl,
            show (([a, d] : Str).getLast?) = some d from rfl,
            show ((some d == some 'n')) = (d == 'n') from rfl, e1]
          rfl
      | cons e t3 =>
        have hb : ((d :: e :: t3 : Str) == ['n']) = false := by
          rw [show ((d :: e :: t3 : Str) == ['n']) =
              ((d == 'n') && ((e :: t3 : Str) == ([] : Str))) from rfl]
          rw [show ((e :: t3 : Str) == ([] : Str)) = false from rfl]
          simp
        rw [hb, List.getLast?_cons_cons]
        simp [List.length_cons]

end DevStats

namespace DevStats

theorem sqlLike_pat (s : Str) :
    sqlLike (lc "%_n") s = (decide (2 ≤ s.length) && (s.getLast? == some 'n')) :=
  sqlLikeGo_pat s _ (by simp [lc]; omega)

theorem toDigitsCore_getLast?_acc :
    ∀ (f n : Nat) (acc : List Char), acc ≠ [] →
      (Nat.toDigitsCore 10 f n acc).getLast? = acc.getLast? := by
  intro f
  induction f with
  | zero => intro n acc h; rfl
  | succ f ih =>
    intro n acc h
    unfold Nat.toDigitsCore
    dsimp only
    split
    · cases acc with
      | nil => exact absurd rfl h
      | cons x xs => rw [List.getLast?_cons_cons]
    · rw [ih _ _ (by simp)]
      cases acc with
      | nil => exact absurd rfl h
      | cons x xs => rw [List.getLast?_cons_cons]

theorem natStr_getLast? (n : Nat) :
    (natStr n).getLast? = some (Nat.digitChar (n % 10)) := by
  unfold natStr Nat.toDigits Nat.toDigitsCore
  dsimp only
  split
  · rfl
  · rw [toDigitsCore_getLast?_acc _ _ _ (by simp)]
    rfl

theorem digitChar_ne_n (d : Nat) (h : d < 10) : Nat.digitChar d ≠ 'n' := by
  interval_cases d <;> decide

theorem suffix_un_getLast {s : Str} (h : lc "_n" <:+ s) : s.getLast? = some 'n' := by
  obtain ⟨t, rfl⟩ := h
  rw [List.getLast?_append]
  rfl

theorem milestonePts_sfx (sd jd incubD gradD : Option Int) (now tm : Int) :
    ∀ p ∈ milestonePts sd jd incubD gradD now tm,
      p.sfx ∈ [lc "c_b", lc "c_n", lc "c_j_i", lc "c_i_g", lc "c_i_n", lc "c_j_g",
        lc "c_g_n"] := by
  intro p hp
  cases sd with
  | none => simp [milestonePts] at hp
  | some start =>
    cases jd with
    | none => simp [milestonePts] at hp
    | some join =>
      unfold milestonePts at hp
      dsimp only at hp
      by_cases hjs : start < join
      · rw [if_pos (decide_eq_true (show join > start from hjs))] at hp
        rcases List.mem_cons.mp hp with rfl | hp
        · simp
        rcases List.mem_cons.mp hp with rfl | hp
        · simp
        rcases List.mem_append.mp hp with hp | hp
        · cases incubD with
          | none => simp at hp
          | some incub =>
            dsimp only at hp
            by_cases hcnd :
                (correctOrder (some incub) gradD && decide (incub > join)) = true
            · rw [if_pos hcnd] at hp
              dsimp only at hp
              rcases List.mem_cons.mp hp with rfl | hp
              · simp
              rcases List.mem_cons.mp hp with rfl | hp
              · cases gradD with
                | some grad => simp
                | none => simp
              · simp at hp
            · rw [if_neg hcnd] at hp
              simp at hp
        · cases gradD with
          | none => simp at hp
          | some grad =>
            dsimp only at hp
            by_cases hcnd :
                (correctOrder incubD (some grad) && decide (grad > join)) = true
            · rw [if_pos hcnd] at hp
              cases incubD with
              | none =>
                dsimp only at hp
                rcases List.mem_cons.mp hp with rfl | hp
                · simp
                rcases List.mem_cons.mp hp with rfl | hp
                · simp
                · simp at hp
              | some incub =>
                dsimp only at hp
                rcases List.mem_cons.mp hp with rfl | hp
                · simp
                · simp at hp
            · rw [if_neg hcnd] at hp
              simp at hp
      · rw [if_neg (by simpa using hjs)] at hp
        simp at hp

end DevStats

namespace DevStats

theorem annPts_like (now : Int) :
    ∀ (anns : List Annot) (tm : Int) (i : Nat) (p : QRPoint), p ∈ annPts now tm i anns →
      sqlLike (lc "%_n") p.sfx = decide (lc "_n" <:+ p.sfx) := by
  intro anns
  induction anns with
  | nil => intro tm i p hp; simp [annPts] at hp
  | cons a rest ih =>
    intro tm i p hp
    cases rest with
    | nil =>
      simp only [annPts, List.mem_singleton] at hp
      subst hp
      dsimp only
      have hsuf : lc "_n" <:+ (lc "a_" ++ natStr i ++ lc "_n" : Str) :=
        ⟨lc "a_" ++ natStr i, by rw [List.append_assoc]⟩
      rw [sqlLike_pat, decide_eq_true hsuf, suffix_un_getLast hsuf]
      rw [show ((some 'n' == some 'n')) = true from rfl, Bool.and_true]
      refine decide_eq_true ?_
      simp [lc]
    | cons b rest2 =>
      simp only [annPts, List.mem_cons] at hp
      rcases hp with rfl | hp
      · dsimp only
        have hd := natStr_getLast? (i + 1)
        have hlast : (lc "a_" ++ natStr i ++ '_' :: natStr (i + 1) : Str).getLast? =
            some (Nat.digitChar ((i + 1) % 10)) := by
          have h1 : ('_' :: natStr (i + 1) : Str).getLast? =
              some (Nat.digitChar ((i + 1) % 10)) := by
            rw [show ('_' :: natStr (i + 1) : Str) = ['_'] ++ natStr (i + 1) from rfl,
              List.getLast?_append, hd]
            rfl
          rw [List.getLast?_append, List.getLast?_append, h1]
          rfl
        have hne : Nat.digitChar ((i + 1) % 10) ≠ 'n' :=
          digitChar_ne_n _ (Nat.mod_lt _ (by norm_num))
        rw [sqlLike_pat, hlast]
        rw [show ((some (Nat.digitChar ((i + 1) % 10)) == some 'n')) =
            (Nat.digitChar ((i + 1) % 10) == 'n') from rfl]
        rw [beq_eq_false_iff_ne.mpr hne, Bool.and_false]
        refine (decide_eq_false ?_).symm
        intro hsuf
        have := suffix_un_getLast hsuf
        rw [hlast] at this
        exact hne (Option.some.inj this)
      · exact ih (tm + 3600) (i + 1) p hp

/-- C9 (amended): the pre-write invalidation keeps exactly the rows NOT
matching SQL `LIKE '%_n'`; the `_` of the pattern is a single-character
wildcard, so the predicate is "length ≥ 2 and last character `n`", not
"ends with the two-character string `_n`" — though on every suffix the
quick-range generator actually emits, the two coincide. -/
theorem c9_like_semantics :
    (∀ s : Str, sqlLike (lc "%_n") s =
        (decide (2 ≤ s.length) && (s.getLast? == some 'n'))) ∧
    (∀ {α : Type} (sfxOf : α → Str) (tbl : List α) (r : α),
      r ∈ deleteStaleQuickRanges sfxOf tbl ↔
        r ∈ tbl ∧ sqlLike (lc "%_n") (sfxOf r) = false) ∧
    (∀ (anns : List Annot) (sd jd incubD gradD : Option Int) (now : Int),
      ∀ p ∈ createQuickRanges anns sd jd incubD gradD now,
        sqlLike (lc "%_n") p.sfx = decide (lc "_n" <:+ p.sfx)) := by
  refine ⟨sqlLike_pat, ?_, ?_⟩
  · intro α sfxOf tbl r
    unfold deleteStaleQuickRanges
    rw [List.mem_filter]
    simp only [Bool.not_eq_true']
  · intro anns sd jd incubD gradD now p hp
    unfold createQuickRanges at hp
    rcases List.mem_append.mp hp with hp | hp
    · rcases List.mem_append.mp hp with hp | hp
      · have hsfx : p.sfx ∈ (fixedPts 1341100800).map QRPoint.sfx :=
          List.mem_map_of_mem QRPoint.sfx hp
        rw [fixedPts_sfx] at hsfx
        simp only [List.mem_cons, List.not_mem_nil, or_false] at hsfx
        rcases hsfx with h | h | h | h | h | h | h | h | h | h | h | h <;> rw [h] <;> decide
      · exact annPts_like now anns _ 0 p hp
    · have hsfx := milestonePts_sfx sd jd incubD gradD now _ p hp
      simp only [List.mem_cons, List.not_mem_nil, or_false] at hsfx
      rcases hsfx with h | h | h | h | h | h | h <;> rw [h] <;> decide

/-- C9 counterexample: a prior row whose suffix is `"on"` does not end in the
two-character string `"_n"`, yet the invalidation deletes it, because SQL
`LIKE '%_n'` treats `_` as a one-character wildcard. -/
theorem c9_counterexample :
    deleteStaleQuickRanges (fun s => s) [lc "on"] = [] ∧ ¬(lc "_n" <:+ lc "on") := by
  constructor
  · decide
  · decide

/-- C9 witness: the amended theorem at the pattern characterization of
`"c_n"`, a one-row table, and the first fixed range of a concrete run. -/
theorem c9_witness :
    (sqlLike (lc "%_n") (lc "c_n") =
      (decide (2 ≤ (lc "c_n").length) && ((lc "c_n").getLast? == some 'n'))) ∧
    ((lc "on", lc "x") ∈ deleteStaleQuickRanges Prod.fst [(lc "on", lc "x")] ↔
      ((lc "on", lc "x") ∈ [((lc "on" : Str), (lc "x" : Str))] ∧
        sqlLike (lc "%_n") (lc "on") = false)) ∧
    sqlLike (lc "%_n")
        (⟨lc "d", lc "Last day", none, none, some (lc "1 day"), 1341100800⟩ : QRPoint).sfx =
      decide (lc "_n" <:+
        (⟨lc "d", lc "Last day", none, none, some (lc "1 day"), 1341100800⟩ : QRPoint).sfx) :=
  ⟨c9_like_semantics.1 (lc "c_n"),
    c9_like_semantics.2.1 Prod.fst [(lc "on", lc "x")] (lc "on", lc "x"),
    c9_like_semantics.2.2 [] none none none none 0
      ⟨lc "d", lc "Last day", none, none, some (lc "1 day"), 1341100800⟩ (by decide)⟩

end DevStats

namespace DevStats

/-- C10: one insert batch takes its column set beyond `time`/`time_hour` from
the FIRST point's tag and field keys; every point is rendered under exactly
that schema — a missing tag key contributes the empty string, a missing
field key contributes SQL `NULL`, and keys the first point lacks contribute
no cell at all (every row has exactly the schema's width). -/
theorem c10_batch_schema (sample : TSPt) (rest : List TSPt) (q : TSPt)
    (hq : q ∈ sample :: rest) :
    (insertBatch (sample :: rest)).1 =
      lc "time" :: lc "time_hour" :: (tagKeys sample ++ fieldKeys sample) ∧
    rowOf sample q ∈ (insertBatch (sample :: rest)).2 ∧
    (rowOf sample q).length = (insertBatch (sample :: rest)).1.length ∧
    (∀ i, i < (tagKeys sample).length →
      (rowOf sample q).getD (2 + i) Cell.cnull =
        Cell.cstr (lookupTag q ((tagKeys sample).getD i []))) ∧
    (∀ j, j < (fieldKeys sample).length →
      (rowOf sample q).getD (2 + (tagKeys sample).length + j) Cell.cnull =
        renderField (lookupField q ((fieldKeys sample).getD j []))) ∧
    (∀ i, i < (tagKeys sample).length →
      (q.tags.getD []).find? (fun kv => kv.1 == (tagKeys sample).getD i []) = none →
      (rowOf sample q).getD (2 + i) Cell.cnull = Cell.cstr []) ∧
    (∀ j, j < (fieldKeys sample).length →
      (q.fields.getD []).find? (fun kv => kv.1 == (fieldKeys sample).getD j []) = none →
      (rowOf sample q).getD (2 + (tagKeys sample).length + j) Cell.cnull = Cell.cnull) := by
  have hrow : ∀ (n : Nat),
      (rowOf sample q).getD (2 + n) Cell.cnull =
        ((tagKeys sample).map (fun k => Cell.cstr (lookupTag q k)) ++
          (fieldKeys sample).map (fun k => renderField (lookupField q k))).getD n
          Cell.cnull := by
    intro n
    have e : 2 + n = n + 1 + 1 := by omega
    rw [e]
    unfold rowOf
    rw [List.getD_cons_succ, List.getD_cons_succ]
  have htag : ∀ i, i < (tagKeys sample).length →
      (rowOf sample q).getD (2 + i) Cell.cnull =
        Cell.cstr (lookupTag q ((tagKeys sample).getD i [])) := by
    intro i hi
    rw [hrow i]
    rw [List.getD_append _ _ _ _ (by simpa using hi)]
    rw [List.getD_eq_getElem?_getD, List.getElem?_map,
      List.getElem?_eq_getElem hi]
    rw [List.getD_eq_getElem?_getD, List.getElem?_eq_getElem hi]
    rfl
  have hfield : ∀ j, j < (fieldKeys sample).length →
      (rowOf sample q).getD (2 + (tagKeys sample).length + j) Cell.cnull =
        renderField (lookupField q ((fieldKeys sample).getD j [])) := by
    intro j hj
    have e : 2 + (tagKeys sample).length + j = 2 + ((tagKeys sample).length + j) := by
      omega
    rw [e, hrow ((tagKeys sample).length + j)]
    rw [List.getD_append_right _ _ _ _ (by simp)]
    have e2 : (tagKeys sample).length + j -
        ((tagKeys sample).map (fun k => Cell.cstr (lookupTag q k))).length = j := by
      simp
    rw [e2]
    rw [List.getD_eq_getElem?_getD, List.getElem?_map, List.getElem?_eq_getElem hj]
    rw [List.getD_eq_getElem?_getD, List.getElem?_eq_getElem hj]
    rfl
  refine ⟨rfl, ?_, ?_, htag, hfield, ?_, ?_⟩
  · exact List.mem_map_of_mem (rowOf sample) hq
  · unfold rowOf insertBatch
    simp
  · intro i hi hnone
    rw [htag i hi]
    unfold lookupTag
    rw [hnone]
    rfl
  · intro j hj hnone
    rw [hfield j hj]
    unfold lookupField
    rw [hnone]
    rfl

/-- C10 witness: a two-point batch where the second point lacks the first
point's tag and field keys (rendered `''` and `NULL`) and carries an extra
tag key that is silently omitted. -/
theorem c10_witness :
    rowOf ⟨lc "quick_ranges", [], 0, some [(lc "t1", lc "v1")], some [(lc "f1", FVal.fnum 5)]⟩
        ⟨lc "quick_ranges", [], 3600, some [(lc "t2", lc "w2")], none⟩ =
      [Cell.ctime 3600, Cell.ctime 3600, Cell.cstr [], Cell.cnull] ∧
    ((insertBatch [⟨lc "quick_ranges", [], 0, some [(lc "t1", lc "v1")],
          some [(lc "f1", FVal.fnum 5)]⟩,
        ⟨lc "quick_ranges", [], 3600, some [(lc "t2", lc "w2")], none⟩]).1 =
      lc "time" :: lc "time_hour" ::
        (tagKeys ⟨lc "quick_ranges", [], 0, some [(lc "t1", lc "v1")],
            some [(lc "f1", FVal.fnum 5)]⟩ ++
          fieldKeys ⟨lc "quick_ranges", [], 0, some [(lc "t1", lc "v1")],
            some [(lc "f1", FVal.fnum 5)]⟩) ∧
      rowOf ⟨lc "quick_ranges", [], 0, some [(lc "t1", lc "v1")],
          some [(lc "f1", FVal.fnum 5)]⟩
          ⟨lc "quick_ranges", [], 3600, some [(lc "t2", lc "w2")], none⟩ ∈
        (insertBatch [⟨lc "quick_ranges", [], 0, some [(lc "t1", lc "v1")],
            some [(lc "f1", FVal.fnum 5)]⟩,
          ⟨lc "quick_ranges", [], 3600, some [(lc "t2", lc "w2")], none⟩]).2 ∧
      (rowOf ⟨lc "quick_ranges", [], 0, some [(lc "t1", lc "v1")],
          some [(lc "f1", FVal.fnum 5)]⟩
          ⟨lc "quick_ranges", [], 3600, some [(lc "t2", lc "w2")], none⟩).length =
        (insertBatch [⟨lc "quick_ranges", [], 0, some [(lc "t1", lc "v1")],
            some [(lc "f1", FVal.fnum 5)]⟩,
          ⟨lc "quick_ranges", [], 3600, some [(lc "t2", lc "w2")], none⟩]).1.length ∧
      (∀ i, i < (tagKeys ⟨lc "quick_ranges", [], 0, some [(lc "t1", lc "v1")],
            some [(lc "f1", FVal.fnum 5)]⟩).length →
        (rowOf ⟨lc "quick_ranges", [], 0, some [(lc "t1", lc "v1")],
            some [(lc "f1", FVal.fnum 5)]⟩
            ⟨lc "quick_ranges", [], 3600, some [(lc "t2", lc "w2")], none⟩).getD (2 + i)
            Cell.cnull =
          Cell.cstr (lookupTag ⟨lc "quick_ranges", [], 3600, some [(lc "t2", lc "w2")], none⟩
            ((tagKeys ⟨lc "quick_ranges", [], 0, some [(lc "t1", lc "v1")],
              some [(lc "f1", FVal.fnum 5)]⟩).getD i []))) ∧
      (∀ j, j < (fieldKeys ⟨lc "quick_ranges", [], 0, some [(lc "t1", lc "v1")],
            some [(lc "f1", FVal.fnum 5)]⟩).length →
        (rowOf ⟨lc "quick_ranges", [], 0, some [(lc "t1", lc "v1")],
            some [(lc "f1", FVal.fnum 5)]⟩
            ⟨lc "quick_ranges", [], 3600, some [(lc "t2", lc "w2")], none⟩).getD
            (2 + (tagKeys ⟨lc "quick_ranges", [], 0, some [(lc "t1", lc "v1")],
              some [(lc "f1", FVal.fnum 5)]⟩).length + j) Cell.cnull =
          renderField (lookupField
            ⟨lc "quick_ranges", [], 3600, some [(lc "t2", lc "w2")], none⟩
            ((fieldKeys ⟨lc "quick_ranges", [], 0, some [(lc "t1", lc "v1")],
              some [(lc "f1", FVal.fnum 5)]⟩).getD j []))) ∧
      (∀ i, i < (tagKeys ⟨lc "quick_ranges", [], 0, some [(lc "t1", lc "v1")],
            some [(lc "f1", FVal.fnum 5)]⟩).length →
        ((⟨lc "quick_ranges", [], 3600, some [(lc "t2", lc "w2")], none⟩ :
            TSPt).tags.getD []).find?
            (fun kv => kv.1 == (tagKeys ⟨lc "quick_ranges", [], 0,
              some [(lc "t1", lc "v1")], some [(lc "f1", FVal.fnum 5)]⟩).getD i []) =
            none →
        (rowOf ⟨lc "quick_ranges", [], 0, some [(lc "t1", lc "v1")],
            some [(lc "f1", FVal.fnum 5)]⟩
            ⟨lc "quick_ranges", [], 3600, some [(lc "t2", lc "w2")], none⟩).getD (2 + i)
            Cell.cnull = Cell.cstr []) ∧
      (∀ j, j < (fieldKeys ⟨lc "quick_ranges", [], 0, some [(lc "t1", lc "v1")],
            some [(lc "f1", FVal.fnum 5)]⟩).length →
        ((⟨lc "quick_ranges", [], 3600, some [(lc "t2", lc "w2")], none⟩ :
            TSPt).fields.getD []).find?
            (fun kv => kv.1 == (fieldKeys ⟨lc "quick_ranges", [], 0,
              some [(lc "t1", lc "v1")], some [(lc "f1", FVal.fnum 5)]⟩).getD j []) =
            none →
        (rowOf ⟨lc "quick_ranges", [], 0, some [(lc "t1", lc "v1")],
            some [(lc "f1", FVal.fnum 5)]⟩
            ⟨lc "quick_ranges", [], 3600, some [(lc "t2", lc "w2")], none⟩).getD
            (2 + (tagKeys ⟨lc "quick_ranges", [], 0, some [(lc "t1", lc "v1")],
              some [(lc "f1", FVal.fnum 5)]⟩).length + j) Cell.cnull = Cell.cnull)) :=
  ⟨by decide,
    c10_batch_schema
      ⟨lc "quick_ranges", [], 0, some [(lc "t1", lc "v1")], some [(lc "f1", FVal.fnum 5)]⟩
      [⟨lc "quick_ranges", [], 3600, some [(lc "t2", lc "w2")], none⟩]
      ⟨lc "quick_ranges", [], 3600, some [(lc "t2", lc "w2")], none⟩
      (by decide)⟩

end DevStats
